import Mathlib

/-!
Verification development for the `matchmaking` repository
(`src/matchmaking.py`): a probabilistic matchmaking algorithm that forms
groups of five players from a rated population.

Shallow embedding notes:
* a Python player tuple `(name, elo, queue_time)` becomes the structure
  `Player`; ratings are embedded as real numbers (the code computes with
  floats), wait counters as naturals;
* `np.random.choice(np.arange(L), p=p)` draws an index with positive
  probability; an index whose probability is zero is never returned
  (its cdf segment is empty).  We model the random source as an `Oracle`
  (a stream of naturals consumed one per random call); the oracle value
  selects which of the positive-probability indices is drawn, so
  quantifying over all oracles quantifies exactly over the possible runs;
* when all ratings are identical, `np.std(elo_diffs)` is `0` and
  `elo_diffs/0` is `0/0 = NaN` in numpy; the NaNs flow into the
  probability vector and reach `np.random.choice`, whose behaviour is
  then erroneous (no valid draw exists).  The NaN path is reached exactly
  when the `possible_players < 5` early return does not fire, so `match`
  is embedded with result type `Except Unit (Option (List Player))`:
  `.error ()` is the NaN outcome, `.ok none` is the "no group from this
  seed" outcome, `.ok (some g)` a formed group.
-/

open scoped Classical

noncomputable section

/-- A player record: `player[0] = name`, `player[1] = elo`,
`player[2] = time in queue` (rounds waited). -/
structure Player where
  name : String
  elo : ℝ
  waited : ℕ
deriving Inhabited

/-- The pseudo-random source: a stream of naturals, one consumed per call
into `np.random`. -/
abbrev Oracle := ℕ → ℕ

/-- `i`-th entry of a float vector, `0` past the end (every access the code
performs is in bounds). -/
def entry (p : List ℝ) (i : ℕ) : ℝ := (p[i]?).getD 0

/-- Indices of `p` carrying positive probability mass. -/
def posIndices (p : List ℝ) : List ℕ :=
  (List.range p.length).filter fun i => 0 < entry p i

/-- `np.random.choice(np.arange(len p), p=p)`: draws an index with positive
probability; the oracle value `v` selects which one. -/
def npChoice (p : List ℝ) (v : ℕ) : ℕ :=
  (posIndices p).getD (v % (posIndices p).length) 0

/-- Source line 25: `score = lambda R, d, n: 1/R**(np.log(n)*d)`. -/
def score (R d n : ℝ) : ℝ := 1 / R ^ (Real.log n * d)

/-- Source line 26: `search_adj = lambda n: 10*np.exp(-0.3*n) + 1`. -/
def search_adj (n : ℕ) : ℝ := 10 * Real.exp (-(0.3) * n) + 1

/-- Source line 28: `ELO_RANGE = 100`. -/
def ELO_RANGE : ℝ := 100

/-- Source line 32: `players = sorted(players, key=lambda x: x[1])` —
Python's stable sort by rating ascending. -/
def sortPool (ps : List Player) : List Player :=
  ps.insertionSort fun a b => a.elo ≤ b.elo

/-- Source: `np.mean`. -/
def mean (xs : List ℝ) : ℝ := xs.sum / xs.length

/-- Source: `np.std` (population standard deviation,
`sqrt(mean(|x - mean x|^2))`). -/
def npStd (xs : List ℝ) : ℝ :=
  Real.sqrt (mean (xs.map fun x => (x - mean xs) ^ 2))

/-- Source line 35: `elo_diffs = [players[i][1] for i] - players[seed_i][1]`
(on the sorted pool). -/
def eloDiffs (ps : List Player) (s : ℕ) : List ℝ :=
  ps.map fun p => p.elo - (ps.getD s default).elo

/-- Source line 36: `elo_diffs_std = np.abs(elo_diffs/np.std(elo_diffs))`.
Meaningful only when the standard deviation is nonzero; when it is zero
numpy produces NaN, which `match` below surfaces as `.error`. -/
def eloDiffsStd (ps : List Player) (s : ℕ) : List ℝ :=
  (eloDiffs ps s).map fun x => |x / npStd (eloDiffs ps s)|

/-- Source lines 33, 38, 39: ranks are `abs(i - seed_i)` over the sorted
order, `scores[i] = score(ranks[i], elo_diffs_std[i], len(players))`
(note: `len(players)` — the current pool size), then `scores[seed_i] = 0`. -/
def baseScores (ps : List Player) (s : ℕ) : List ℝ :=
  (((List.range ps.length).map fun i =>
    score (Nat.dist i s) ((eloDiffsStd ps s).getD i 0) ps.length)).set s 0

/-- Source line 44: the elo gate's width,
`ELO_RANGE*search_adj(n)*(players[seed_i][2]+1)`. -/
def gateBound (ps : List Player) (s : ℕ) (n : ℕ) : ℝ :=
  ELO_RANGE * search_adj n * ((ps.getD s default).waited + 1)

/-- Source lines 42-47: zero the score of players outside the seed's elo
searching range. -/
def gatedScores (ps : List Player) (s : ℕ) (n : ℕ) : List ℝ :=
  (List.range ps.length).map fun i =>
    if |(ps.getD i default).elo - (ps.getD s default).elo| > gateBound ps s n
    then 0 else (baseScores ps s).getD i 0

/-- Source lines 41-47, the `possible_players` counter: indices whose elo is
within the seed's searching range (the seed itself included, its diff is 0). -/
def eligibleIdx (ps : List Player) (s : ℕ) (n : ℕ) : List ℕ :=
  (List.range ps.length).filter fun i =>
    ¬ (|(ps.getD i default).elo - (ps.getD s default).elo| > gateBound ps s n)

/-- `possible_players` after the loop of lines 42-47. -/
def possiblePlayers (ps : List Player) (s : ℕ) (n : ℕ) : ℕ :=
  (eligibleIdx ps s n).length

/-- In-gate players other than the seed: the "eligible companions". -/
def eligibleCompanions (ps : List Player) (s : ℕ) (n : ℕ) : ℕ :=
  ((List.range ps.length).filter fun i =>
    i ≠ s ∧
    ¬ (|(ps.getD i default).elo - (ps.getD s default).elo| > gateBound ps s n)).length

/-- Source line 52: `p = scores/sum(scores)`. -/
def probs (ps : List Player) (s : ℕ) (n : ℕ) : List ℝ :=
  (gatedScores ps s n).map fun x => x / (gatedScores ps s n).sum

/-- Source lines 57-59: zero the chosen entry's mass, then
`if sum(p) > 0: p = p/sum(p)`. -/
def renorm (p : List ℝ) : List ℝ :=
  if 0 < p.sum then p.map fun x => x / p.sum else p

/-- Source lines 54-59: the four draws of the sampling loop, as the list of
chosen indices (into the sorted pool). -/
def sampleIdx : ℕ → List ℝ → Oracle → ℕ → List ℕ
  | 0, _, _, _ => []
  | k + 1, p, o, t =>
    let c := npChoice p (o t)
    c :: sampleIdx k (renorm (p.set c 0)) o (t + 1)

/-- Source lines 53-60: `match = [players[seed_i]]` then the four sampled
companions, in draw order (indices into the sorted pool). -/
def matchGroup (ps : List Player) (s n : ℕ) (o : Oracle) (t : ℕ) : List Player :=
  (sortPool ps).getD s default ::
    (sampleIdx 4 (probs (sortPool ps) s n) o t).map fun i => (sortPool ps).getD i default

/-- Source lines 30-60, `match(players, seed_i, n)`.  `.ok none` is the
`possible_players < 5` early return (line 50); `.error ()` is the NaN path:
all ratings identical makes `np.std` zero, `0/0 = NaN` scores, and the NaN
probability vector reaches `np.random.choice` (only when the early return
did not fire). -/
def «match» (ps : List Player) (s n : ℕ) (o : Oracle) (t : ℕ) :
    Except Unit (Option (List Player)) :=
  if possiblePlayers (sortPool ps) s n < 5 then .ok none
  else if npStd (eloDiffs (sortPool ps) s) = 0 then .error ()
  else .ok (some (matchGroup ps s n o t))

/-- Source lines 62-69, `select_seed_weighted(players)`: uniform over all
indices when every queue time is zero, else weighted by queue time. -/
def select_seed_weighted (ps : List Player) (v : ℕ) : ℕ :=
  if (ps.map Player.waited).sum = 0 then v % ps.length
  else npChoice ((ps.map Player.waited).map fun w : ℕ =>
    (w : ℝ) / ((ps.map Player.waited).sum : ℝ)) v

/-- Source line 85: the end-of-round aging,
`(player[0], player[1], player[2]+1)`. -/
def bump (p : Player) : Player := ⟨p.name, p.elo, p.waited + 1⟩

/-- Source lines 77-84, the inner loop of `match_all`: repeatedly select a
seed and attempt a match while `len(players) > 4 and players_picked <
len(players)`.  Returns the final pool, the accumulated matches, the final
`players_picked` counter and the next oracle position. -/
def innerLoop (pool : List Player) (n picked : ℕ) (o : Oracle) (t : ℕ)
    (acc : List (List String)) :
    Except Unit (List Player × List (List String) × ℕ × ℕ) :=
  if h : 4 < pool.length ∧ picked < pool.length then
    match «match» pool (select_seed_weighted pool (o t)) n o (t + 1) with
    | .error e => .error e
    | .ok none => innerLoop pool n (picked + 1) o (t + 1) acc
    | .ok (some g) =>
        innerLoop (pool.filter fun q => ¬ q ∈ g) n (picked + 1) o (t + 1 + 4)
          (acc ++ [g.map Player.name])
  else .ok (pool, acc, picked, t)
termination_by pool.length - picked
decreasing_by
  · exact Nat.sub_succ_lt_self _ _ h.2
  · calc (pool.filter fun q => ¬ q ∈ g).length - (picked + 1)
        ≤ pool.length - (picked + 1) :=
          Nat.sub_le_sub_right (List.length_filter_le _ _) _
    _ < pool.length - picked := Nat.sub_succ_lt_self _ _ h.2

/-- Source lines 71-87, the outer loop of `match_all`: up to five rounds
(`times_matched`), each running the inner loop and then aging every
remaining player's queue time; `n` is fixed at the original population
size for the whole run. -/
def matchAllGo (n : ℕ) : List Player → ℕ → Oracle → ℕ → List (List String) →
    Except Unit (List (List String))
  | pool, times, o, t, acc =>
    if times < 5 ∧ 4 < pool.length then
      match innerLoop pool n 0 o t acc with
      | .error e => .error e
      | .ok (pool', acc', _, t') =>
          matchAllGo n (pool'.map bump) (times + 1) o t' acc'
    else .ok acc
termination_by _ times => 5 - times
decreasing_by
  exact Nat.sub_succ_lt_self _ _ (by omega)

/-- Source lines 71-87, `match_all(players)`: `n = len(players)` is taken
once from the input population. -/
def match_all (ps : List Player) (o : Oracle) : Except Unit (List (List String)) :=
  matchAllGo ps.length ps 0 o 0 []

/-- Invariant of a run: the pool's names are distinct, every formed group
has five distinct names, groups are pairwise disjoint, and no formed group
shares a name with the current pool. -/
def GoodState (pool : List Player) (acc : List (List String)) : Prop :=
  (pool.map Player.name).Nodup ∧
  (∀ g ∈ acc, g.length = 5 ∧ g.Nodup) ∧
  List.Pairwise (fun g₁ g₂ => ∀ x ∈ g₁, x ∉ g₂) acc ∧
  ∀ g ∈ acc, ∀ x ∈ g, x ∉ pool.map Player.name

/-- The spec's base-score formula, for comparison with `baseScores`:
`score_i = 1 / R_i ^ (d_i · ln(n))` where `n` is the original full
population for the run (spec §4.1), not the current pool size. -/
def specBaseScores (ps : List Player) (s : ℕ) (n : ℕ) : List ℝ :=
  (((List.range ps.length).map fun i =>
    score (Nat.dist i s) ((eloDiffsStd ps s).getD i 0) n)).set s 0

/-- The all-zeros oracle (a concrete random stream for test runs). -/
def o₀ : Oracle := fun _ => 0

/-- Two players with equal ratings (a pool too small to form any group). -/
def P2 : List Player := [⟨"x", 0, 0⟩, ⟨"y", 0, 0⟩]

/-- Three players with ratings 0, 1, 2 (already sorted). -/
def P3 : List Player := [⟨"a", 0, 0⟩, ⟨"b", 1, 0⟩, ⟨"c", 2, 0⟩]

/-- Five players with close ratings, listed out of rating order: the
element at index 0 is not the lowest-rated one. -/
def pool5 : List Player :=
  [⟨"a", 1550, 0⟩, ⟨"b", 1500, 0⟩, ⟨"c", 1510, 0⟩, ⟨"d", 1520, 0⟩, ⟨"e", 1530, 0⟩]

/-- `pool5` sorted by rating ascending. -/
def pool5s : List Player :=
  [⟨"b", 1500, 0⟩, ⟨"c", 1510, 0⟩, ⟨"d", 1520, 0⟩, ⟨"e", 1530, 0⟩, ⟨"a", 1550, 0⟩]

/-- Five players with identical ratings and zero waited-counters. -/
def I5 : List Player :=
  [⟨"p1", 1500, 0⟩, ⟨"p2", 1500, 0⟩, ⟨"p3", 1500, 0⟩, ⟨"p4", 1500, 0⟩, ⟨"p5", 1500, 0⟩]

/-- Five players whose mutual rating gaps are far wider than any gate. -/
def far5 : List Player :=
  [⟨"f1", 100000, 0⟩, ⟨"f2", 200000, 0⟩, ⟨"f3", 300000, 0⟩,
   ⟨"f4", 400000, 0⟩, ⟨"f5", 500000, 0⟩]

/-- Ten players, sorted by rating: five close ones (mutually within every
gate) followed by the five of `far5`. -/
def pool10 : List Player :=
  [⟨"c1", 1000, 0⟩, ⟨"c2", 1010, 0⟩, ⟨"c3", 1020, 0⟩, ⟨"c4", 1030, 0⟩,
   ⟨"c5", 1040, 0⟩] ++ far5

/-- A two-player pool whose second player sits exactly at the elo-gate
boundary distance from the first. -/
def Pb : List Player := [⟨"s", 0, 0⟩, ⟨"b", ELO_RANGE * search_adj 1 * 1, 0⟩]

end

/-! ### Basic facts about probability vectors and the draw model -/

theorem entry_map_div (p : List ℝ) (c : ℝ) (i : ℕ) :
    entry (p.map fun x => x / c) i = entry p i / c := by
  cases h : p[i]? <;> simp [entry, List.getElem?_map, h, zero_div]

theorem mem_posIndices {p : List ℝ} {i : ℕ} :
    i ∈ posIndices p ↔ i < p.length ∧ 0 < entry p i := by
  simp [posIndices, List.mem_filter, List.mem_range]

theorem posIndices_nodup (p : List ℝ) : (posIndices p).Nodup :=
  (List.nodup_range _).filter _

theorem npChoice_mem {p : List ℝ} (v : ℕ) (h : posIndices p ≠ []) :
    npChoice p v ∈ posIndices p := by
  have hl : 0 < (posIndices p).length := List.length_pos.mpr h
  have hm : v % (posIndices p).length < (posIndices p).length := Nat.mod_lt _ hl
  rw [npChoice, List.getD_eq_getElem _ _ hm]
  exact List.getElem_mem _

theorem posIndices_map_div {p : List ℝ} {c : ℝ} (hc : 0 < c) :
    posIndices (p.map fun x => x / c) = posIndices p := by
  unfold posIndices
  rw [List.length_map]
  refine List.filter_congr fun i _ => ?_
  have : (0 < entry (p.map fun x => x / c) i) ↔ 0 < entry p i := by
    rw [entry_map_div]
    constructor
    · intro h
      rcases div_pos_iff.mp h with ⟨h1, _⟩ | ⟨_, h2⟩
      · exact h1
      · exact absurd hc (not_lt.mpr h2.le)
    · intro h
      exact div_pos h hc
  simp [this]

theorem sum_pos_of_entry {p : List ℝ} (hp : ∀ x ∈ p, 0 ≤ x) {i : ℕ}
    (hi : 0 < entry p i) : 0 < p.sum := by
  have hlen : i < p.length := by
    by_contra hge
    rw [entry, List.getElem?_eq_none (le_of_not_lt hge)] at hi
    simp at hi
  have hx : entry p i = p[i] := by rw [entry, List.getElem?_eq_getElem hlen]; rfl
  have hmem : p[i] ∈ p := List.getElem_mem hlen
  have := List.single_le_sum hp _ hmem
  rw [hx] at hi
  linarith

theorem set_zero_nonneg {p : List ℝ} (hp : ∀ x ∈ p, 0 ≤ x) (c : ℕ) :
    ∀ x ∈ p.set c 0, 0 ≤ x := by
  intro x hx
  rcases List.mem_or_eq_of_mem_set hx with h | h
  · exact hp x h
  · simp [h]

theorem renorm_nonneg {p : List ℝ} (hp : ∀ x ∈ p, 0 ≤ x) :
    ∀ x ∈ renorm p, 0 ≤ x := by
  intro x hx
  unfold renorm at hx
  split at hx
  · rcases List.mem_map.mp hx with ⟨y, hy, rfl⟩
    exact div_nonneg (hp y hy) (by linarith [List.sum_nonneg hp])
  · exact hp x hx

theorem posIndices_renorm {p : List ℝ} :
    posIndices (renorm p) = posIndices p := by
  unfold renorm
  split
  · exact posIndices_map_div (by assumption)
  · rfl

theorem posIndices_set_zero {p : List ℝ} {c : ℕ} (hc : c ∈ posIndices p) :
    posIndices (p.set c 0) = (posIndices p).erase c := by
  obtain ⟨hlt, _⟩ := mem_posIndices.mp hc
  rw [(posIndices_nodup p).erase_eq_filter c]
  unfold posIndices
  rw [List.length_set, List.filter_filter]
  refine List.filter_congr fun i hi => ?_
  by_cases h : i = c
  · subst h
    have : entry (p.set i 0) i = 0 := by
      rw [entry, List.getElem?_set_eq hlt]; rfl
    simp [this]
  · have : entry (p.set c 0) i = entry p i := by
      rw [entry, List.getElem?_set_ne (fun hh => h hh.symm)]; rfl
    simp [this, h]

theorem sampleIdx_spec (k : ℕ) :
    ∀ (p : List ℝ) (o : Oracle) (t : ℕ), (∀ x ∈ p, 0 ≤ x) →
      k ≤ (posIndices p).length →
      (sampleIdx k p o t).length = k ∧ (sampleIdx k p o t).Nodup ∧
        ∀ i ∈ sampleIdx k p o t, i ∈ posIndices p := by
  induction k with
  | zero => intro p o t _ _; simp [sampleIdx]
  | succ k ih =>
    intro p o t hp hk
    have hne : posIndices p ≠ [] := by
      intro h
      rw [h] at hk
      simp at hk
    have hc : npChoice p (o t) ∈ posIndices p := npChoice_mem _ hne
    set c := npChoice p (o t) with hcdef
    have hnonneg : ∀ x ∈ renorm (p.set c 0), 0 ≤ x :=
      renorm_nonneg (set_zero_nonneg hp c)
    have hpos : posIndices (renorm (p.set c 0)) = (posIndices p).erase c := by
      rw [posIndices_renorm, posIndices_set_zero hc]
    have hlen : k ≤ (posIndices (renorm (p.set c 0))).length := by
      rw [hpos, List.length_erase_of_mem hc]
      omega
    obtain ⟨ihl, ihnd, ihmem⟩ := ih (renorm (p.set c 0)) o (t + 1) hnonneg hlen
    refine ⟨by simp [sampleIdx, ihl], ?_, ?_⟩
    · rw [sampleIdx]
      refine List.nodup_cons.mpr ⟨?_, ihnd⟩
      intro hmem
      have := ihmem _ hmem
      rw [hpos] at this
      exact (((posIndices_nodup p).mem_erase_iff).mp this).1 rfl
    · intro i hi
      rw [sampleIdx] at hi
      rcases List.mem_cons.mp hi with h | h
      · rw [h]; exact hc
      · have := ihmem _ h
        rw [hpos] at this
        exact List.Sublist.mem this (List.erase_sublist _ _)

/-! ### Characterization of the scorer -/

theorem entry_map_range {L : ℕ} {f : ℕ → ℝ} {i : ℕ} :
    entry ((List.range L).map f) i = if i < L then f i else 0 := by
  by_cases h : i < L
  · rw [entry, List.getElem?_map, List.getElem?_range h]
    simp [h]
  · rw [entry, List.getElem?_eq_none (by simpa using le_of_not_lt h)]
    simp [h]

theorem baseScores_length (ps : List Player) (s : ℕ) :
    (baseScores ps s).length = ps.length := by
  simp [baseScores]

theorem gatedScores_length (ps : List Player) (s n : ℕ) :
    (gatedScores ps s n).length = ps.length := by
  simp [gatedScores]

theorem baseScores_getD_seed {ps : List Player} {s : ℕ} (hs : s < ps.length) :
    (baseScores ps s).getD s 0 = 0 := by
  rw [baseScores, List.getD_eq_getElem?_getD, List.getElem?_set_self (by simpa using hs)]
  rfl

theorem baseScores_getD_ne {ps : List Player} {s i : ℕ} (hi : i < ps.length)
    (hne : i ≠ s) :
    (baseScores ps s).getD i 0 =
      score (Nat.dist i s) ((eloDiffsStd ps s).getD i 0) ps.length := by
  rw [baseScores, List.getD_eq_getElem?_getD,
    List.getElem?_set_ne (fun h => hne h.symm), List.getElem?_map,
    List.getElem?_range hi]
  rfl

theorem baseScores_getD_pos {ps : List Player} {s i : ℕ} (hi : i < ps.length)
    (hne : i ≠ s) : 0 < (baseScores ps s).getD i 0 := by
  rw [baseScores_getD_ne hi hne]
  unfold score
  have hd : (0 : ℝ) < (Nat.dist i s : ℝ) := by
    exact_mod_cast Nat.dist_pos_of_ne hne
  exact div_pos one_pos (Real.rpow_pos_of_pos hd _)

theorem baseScores_getD_nonneg (ps : List Player) (s i : ℕ) :
    0 ≤ (baseScores ps s).getD i 0 := by
  by_cases hi : i < ps.length
  · by_cases hne : i = s
    · subst hne
      rw [baseScores_getD_seed hi]
    · exact (baseScores_getD_pos hi hne).le
  · rw [List.getD_eq_getElem?_getD,
      List.getElem?_eq_none (by rw [baseScores_length]; omega)]
    rfl

theorem entry_gatedScores {ps : List Player} {s n i : ℕ} (hi : i < ps.length) :
    entry (gatedScores ps s n) i =
      if |(ps.getD i default).elo - (ps.getD s default).elo| > gateBound ps s n
      then 0 else (baseScores ps s).getD i 0 := by
  rw [gatedScores, entry_map_range, if_pos hi]

theorem gatedScores_nonneg (ps : List Player) (s n : ℕ) :
    ∀ x ∈ gatedScores ps s n, 0 ≤ x := by
  intro x hx
  rw [gatedScores] at hx
  rcases List.mem_map.mp hx with ⟨i, _, rfl⟩
  split
  · rfl
  · exact baseScores_getD_nonneg ps s i

theorem posIndices_gatedScores (ps : List Player) (s n : ℕ) :
    posIndices (gatedScores ps s n) = (eligibleIdx ps s n).filter fun i => i ≠ s := by
  unfold eligibleIdx
  rw [List.filter_filter]
  unfold posIndices
  rw [gatedScores_length]
  refine List.filter_congr fun i hi => ?_
  have hilt : i < ps.length := List.mem_range.mp hi
  rw [entry_gatedScores hilt, ← Bool.decide_and]
  apply decide_eq_decide.mpr
  by_cases hgate : |(ps.getD i default).elo - (ps.getD s default).elo| > gateBound ps s n
  · rw [if_pos hgate]
    exact iff_of_false (lt_irrefl 0) fun h => h.2 hgate
  · rw [if_neg hgate]
    by_cases hne : i = s
    · subst hne
      rw [baseScores_getD_seed hilt]
      exact iff_of_false (lt_irrefl 0) fun h => h.1 rfl
    · exact iff_of_true (baseScores_getD_pos hilt hne) ⟨hne, hgate⟩

/-! ### Gate positivity and eligibility counting -/

theorem search_adj_pos (n : ℕ) : 0 < search_adj n := by
  unfold search_adj
  have := Real.exp_pos (-(0.3) * n)
  linarith

theorem gateBound_pos (ps : List Player) (s n : ℕ) : 0 < gateBound ps s n := by
  unfold gateBound ELO_RANGE
  have h1 := search_adj_pos n
  have h2 : (0 : ℝ) < (ps.getD s default).waited + 1 := by positivity
  positivity

theorem length_filter_succ_of_nodup {α : Type} [DecidableEq α] :
    ∀ (l : List α) (p q : α → Bool) (s : α), l.Nodup → s ∈ l → p s = true →
      (∀ a ∈ l, q a = (decide (a ≠ s) && p a)) →
      (l.filter p).length = (l.filter q).length + 1 := by
  intro l
  induction l with
  | nil => intro p q s _ hs; exact absurd hs (List.not_mem_nil s)
  | cons a l ih =>
    intro p q s hnd hs hps hq
    rw [List.nodup_cons] at hnd
    by_cases ha : a = s
    · subst ha
      have hqa : q a = false := by
        rw [hq a (List.mem_cons_self a l)]
        simp
      have heq : l.filter p = l.filter q := by
        refine (List.filter_congr fun x hx => ?_).symm
        rw [hq x (List.mem_cons_of_mem a hx)]
        have : x ≠ a := fun h => hnd.1 (h ▸ hx)
        simp [this]
      rw [List.filter_cons_of_pos hps, List.filter_cons_of_neg (by simp [hqa]), heq]
      simp
    · have hs' : s ∈ l := by
        rcases List.mem_cons.mp hs with h | h
        · exact absurd h.symm ha
        · exact h
      have hqa : q a = p a := by
        rw [hq a (List.mem_cons_self a l)]
        simp [ha]
      have ihh := ih p q s hnd.2 hs' hps fun x hx => hq x (List.mem_cons_of_mem a hx)
      by_cases hpa : p a = true
      · rw [List.filter_cons_of_pos hpa, List.filter_cons_of_pos (by rw [hqa]; exact hpa)]
        simp [ihh]
      · rw [List.filter_cons_of_neg (by simpa using hpa),
          List.filter_cons_of_neg (by rw [hqa]; simpa using hpa)]
        exact ihh

theorem gate_self {ps : List Player} (s n : ℕ) :
    ¬ (|(ps.getD s default).elo - (ps.getD s default).elo| > gateBound ps s n) := by
  rw [sub_self, abs_zero]
  exact not_lt.mpr (gateBound_pos ps s n).le

theorem possiblePlayers_eq {ps : List Player} {s : ℕ} (n : ℕ) (hs : s < ps.length) :
    possiblePlayers ps s n = eligibleCompanions ps s n + 1 := by
  unfold possiblePlayers eligibleIdx eligibleCompanions
  refine length_filter_succ_of_nodup (List.range ps.length) _ _ s
    (List.nodup_range _) (List.mem_range.mpr hs) ?_ ?_
  · simp only [decide_eq_true_eq]
    exact gate_self s n
  · intro a _
    by_cases h1 : a = s <;>
      by_cases h2 : |(ps.getD a default).elo - (ps.getD s default).elo| > gateBound ps s n <;>
      simp [h1, h2]

theorem posIndices_gatedScores_length (ps : List Player) (s n : ℕ) :
    (posIndices (gatedScores ps s n)).length = eligibleCompanions ps s n := by
  rw [posIndices_gatedScores]
  unfold eligibleIdx eligibleCompanions
  rw [List.filter_filter]
  congr 1
  refine List.filter_congr fun i _ => ?_
  exact (Bool.decide_and _ _).symm

theorem gatedScores_sum_pos {ps : List Player} {s n : ℕ} (hs : s < ps.length)
    (h5 : 5 ≤ possiblePlayers ps s n) : 0 < (gatedScores ps s n).sum := by
  have hcomp : 4 ≤ eligibleCompanions ps s n := by
    have := possiblePlayers_eq n hs
    omega
  have hlen : 0 < (posIndices (gatedScores ps s n)).length := by
    rw [posIndices_gatedScores_length]
    omega
  obtain ⟨i, hi⟩ := List.exists_mem_of_length_pos hlen
  exact sum_pos_of_entry (gatedScores_nonneg ps s n) (mem_posIndices.mp hi).2

theorem probs_nonneg (ps : List Player) (s n : ℕ)
    (hsum : 0 ≤ (gatedScores ps s n).sum) : ∀ x ∈ probs ps s n, 0 ≤ x := by
  intro x hx
  rcases List.mem_map.mp hx with ⟨y, hy, rfl⟩
  exact div_nonneg (gatedScores_nonneg _ _ _ y hy) hsum

/-! ### Branch analysis of `match` -/

theorem sortPool_perm (ps : List Player) : List.Perm (sortPool ps) ps :=
  List.perm_insertionSort _ _

theorem sortPool_length (ps : List Player) : (sortPool ps).length = ps.length :=
  (sortPool_perm ps).length_eq

theorem match_ok_none_iff (ps : List Player) (s n : ℕ) (o : Oracle) (t : ℕ) :
    «match» ps s n o t = .ok none ↔ possiblePlayers (sortPool ps) s n < 5 := by
  unfold «match»
  by_cases h1 : possiblePlayers (sortPool ps) s n < 5
  · simp [h1]
  · by_cases h2 : npStd (eloDiffs (sortPool ps) s) = 0 <;> simp [h1, h2]

theorem match_ok_some_inv {ps : List Player} {s n : ℕ} {o : Oracle} {t : ℕ}
    {g : List Player} (h : «match» ps s n o t = .ok (some g)) :
    g = matchGroup ps s n o t ∧ 5 ≤ possiblePlayers (sortPool ps) s n ∧
      npStd (eloDiffs (sortPool ps) s) ≠ 0 := by
  unfold «match» at h
  by_cases h1 : possiblePlayers (sortPool ps) s n < 5
  · rw [if_pos h1] at h
    exact absurd h (by simp)
  · rw [if_neg h1] at h
    by_cases h2 : npStd (eloDiffs (sortPool ps) s) = 0
    · rw [if_pos h2] at h
      exact absurd h (by simp)
    · rw [if_neg h2] at h
      have hg : matchGroup ps s n o t = g := by simpa using h
      exact ⟨hg.symm, le_of_not_lt h1, h2⟩

theorem match_error_inv {ps : List Player} {s n : ℕ} {o : Oracle} {t : ℕ}
    (h : «match» ps s n o t = .error ()) :
    5 ≤ possiblePlayers (sortPool ps) s n ∧ npStd (eloDiffs (sortPool ps) s) = 0 := by
  unfold «match» at h
  by_cases h1 : possiblePlayers (sortPool ps) s n < 5
  · rw [if_pos h1] at h
    exact absurd h (by simp)
  · rw [if_neg h1] at h
    by_cases h2 : npStd (eloDiffs (sortPool ps) s) = 0
    · exact ⟨le_of_not_lt h1, h2⟩
    · rw [if_neg h2] at h
      exact absurd h (by simp)

/-! ### Structure of a successfully formed group -/

theorem name_inj_of_nodup {l : List Player} (h : (l.map Player.name).Nodup) :
    ∀ x ∈ l, ∀ y ∈ l, x.name = y.name → x = y := by
  induction l with
  | nil => simp
  | cons a l ih =>
    rw [List.map_cons, List.nodup_cons] at h
    intro x hx y hy hxy
    rcases List.mem_cons.mp hx with rfl | hx' <;> rcases List.mem_cons.mp hy with rfl | hy'
    · rfl
    · exact absurd (show x.name ∈ l.map Player.name by
        rw [hxy]; exact List.mem_map_of_mem _ hy') h.1
    · exact absurd (show y.name ∈ l.map Player.name by
        rw [← hxy]; exact List.mem_map_of_mem _ hx') h.1
    · exact ih h.2 x hx' y hy' hxy

theorem sampleIdx_probs_spec {ps : List Player} {s n : ℕ} (o : Oracle) (t : ℕ)
    (hs : s < (sortPool ps).length)
    (h5 : 5 ≤ possiblePlayers (sortPool ps) s n) :
    (sampleIdx 4 (probs (sortPool ps) s n) o t).length = 4 ∧
    (sampleIdx 4 (probs (sortPool ps) s n) o t).Nodup ∧
    ∀ i ∈ sampleIdx 4 (probs (sortPool ps) s n) o t,
      i < (sortPool ps).length ∧ i ≠ s ∧
      ¬ (|((sortPool ps).getD i default).elo - ((sortPool ps).getD s default).elo| >
          gateBound (sortPool ps) s n) := by
  have hsum : 0 < (gatedScores (sortPool ps) s n).sum := gatedScores_sum_pos hs h5
  have hpn : ∀ x ∈ probs (sortPool ps) s n, 0 ≤ x := probs_nonneg _ _ _ hsum.le
  have hppos : posIndices (probs (sortPool ps) s n) =
      posIndices (gatedScores (sortPool ps) s n) := posIndices_map_div hsum
  have hplen : 4 ≤ (posIndices (probs (sortPool ps) s n)).length := by
    rw [hppos, posIndices_gatedScores_length]
    have := possiblePlayers_eq n hs
    omega
  obtain ⟨hl4, hnd4, hmem4⟩ := sampleIdx_spec 4 (probs (sortPool ps) s n) o t hpn hplen
  refine ⟨hl4, hnd4, fun i hi => ?_⟩
  have hmem := hmem4 i hi
  rw [hppos, posIndices_gatedScores] at hmem
  have h1 := List.mem_filter.mp hmem
  unfold eligibleIdx at h1
  have h2 := List.mem_filter.mp h1.1
  exact ⟨List.mem_range.mp h2.1, by simpa using h1.2, by simpa using h2.2⟩

theorem match_some_spec {ps : List Player} {s n : ℕ} {o : Oracle} {t : ℕ}
    {g : List Player} (hs : s < ps.length) (hnd : (ps.map Player.name).Nodup)
    (h : «match» ps s n o t = .ok (some g)) :
    g.length = 5 ∧ g.Nodup ∧ (∀ x ∈ g, x ∈ ps) ∧ (g.map Player.name).Nodup ∧
      g.head? = some ((sortPool ps).getD s default) := by
  obtain ⟨rfl, h5, -⟩ := match_ok_some_inv h
  have hs' : s < (sortPool ps).length := by rw [sortPool_length]; exact hs
  have hperm := sortPool_perm ps
  have hndn : ((sortPool ps).map Player.name).Nodup :=
    ((hperm.map Player.name).nodup_iff).mpr hnd
  have hndp : (sortPool ps).Nodup := List.Nodup.of_map Player.name hndn
  obtain ⟨hl4, hnd4, hmem4⟩ := sampleIdx_probs_spec o t hs' h5
  have hinj : ∀ i ∈ sampleIdx 4 (probs (sortPool ps) s n) o t,
      ∀ j ∈ sampleIdx 4 (probs (sortPool ps) s n) o t,
      (sortPool ps).getD i default = (sortPool ps).getD j default → i = j := by
    intro i hi j hj hij
    have h1 := (hmem4 i hi).1
    have h2 := (hmem4 j hj).1
    rw [List.getD_eq_getElem _ _ h1, List.getD_eq_getElem _ _ h2] at hij
    exact (hndp.getElem_inj_iff).mp hij
  have htailnd : ((sampleIdx 4 (probs (sortPool ps) s n) o t).map
      fun i => (sortPool ps).getD i default).Nodup :=
    List.Nodup.map_on hinj hnd4
  have hheadmem : (sortPool ps).getD s default ∈ sortPool ps := by
    rw [List.getD_eq_getElem _ _ hs']
    exact List.getElem_mem hs'
  have hheadnot : (sortPool ps).getD s default ∉
      ((sampleIdx 4 (probs (sortPool ps) s n) o t).map
        fun i => (sortPool ps).getD i default) := by
    intro hmem
    rcases List.mem_map.mp hmem with ⟨i, hi, heq⟩
    have h1 := (hmem4 i hi).1
    have heq' : (sortPool ps).getD i default = (sortPool ps).getD s default := heq
    rw [List.getD_eq_getElem _ _ h1, List.getD_eq_getElem _ _ hs'] at heq'
    exact (hmem4 i hi).2.1 ((hndp.getElem_inj_iff).mp heq')
  have hmemps : ∀ x ∈ matchGroup ps s n o t, x ∈ ps := by
    intro x hx
    unfold matchGroup at hx
    rcases List.mem_cons.mp hx with rfl | hx'
    · exact hperm.subset hheadmem
    · rcases List.mem_map.mp hx' with ⟨i, hi, rfl⟩
      refine hperm.subset ?_
      rw [List.getD_eq_getElem _ _ (hmem4 i hi).1]
      exact List.getElem_mem _
  have hgnd : (matchGroup ps s n o t).Nodup := by
    unfold matchGroup
    exact List.nodup_cons.mpr ⟨hheadnot, htailnd⟩
  refine ⟨?_, hgnd, hmemps, ?_, ?_⟩
  · unfold matchGroup
    simp [hl4]
  · exact List.Nodup.map_on
      (fun x hx y hy hxy => name_inj_of_nodup hnd x (hmemps x hx) y (hmemps y hy) hxy)
      hgnd
  · unfold matchGroup
    rfl

/-! ### The seed selector stays in bounds -/

theorem select_seed_lt (ps : List Player) (v : ℕ) (h : 0 < ps.length) :
    select_seed_weighted ps v < ps.length := by
  unfold select_seed_weighted
  by_cases hz : (ps.map Player.waited).sum = 0
  · rw [if_pos hz]
    exact Nat.mod_lt _ h
  · rw [if_neg hz]
    have hex : ∃ i, ∃ hi : i < (ps.map Player.waited).length,
        (ps.map Player.waited)[i] ≠ 0 := by
      by_contra hc
      push_neg at hc
      apply hz
      refine List.sum_eq_zero_iff.mpr fun x hx => ?_
      rcases List.mem_iff_getElem.mp hx with ⟨i, hi, rfl⟩
      exact hc i hi
    obtain ⟨i, hi, hw⟩ := hex
    have hS : 0 < (ps.map Player.waited).sum := Nat.pos_of_ne_zero hz
    have hentry : 0 < entry ((ps.map Player.waited).map fun w : ℕ =>
        (w : ℝ) / ((ps.map Player.waited).sum : ℝ)) i := by
      rw [entry, List.getElem?_map, List.getElem?_eq_getElem hi]
      simp only [Option.map_some', Option.getD_some]
      apply div_pos
      · exact_mod_cast Nat.pos_of_ne_zero hw
      · exact_mod_cast hS
    have hne : posIndices ((ps.map Player.waited).map fun w : ℕ =>
        (w : ℝ) / ((ps.map Player.waited).sum : ℝ)) ≠ [] := by
      intro hnil
      have hmem : i ∈ posIndices ((ps.map Player.waited).map fun w : ℕ =>
          (w : ℝ) / ((ps.map Player.waited).sum : ℝ)) :=
        mem_posIndices.mpr ⟨by simpa using hi, hentry⟩
      rw [hnil] at hmem
      exact List.not_mem_nil _ hmem
    have hmem := npChoice_mem v hne
    have h2 := (mem_posIndices.mp hmem).1
    rw [List.length_map, List.length_map] at h2
    exact h2

/-! ### Unfolding equations for the loops -/

theorem innerLoop_eq (pool : List Player) (n picked : ℕ) (o : Oracle) (t : ℕ)
    (acc : List (List String)) :
    innerLoop pool n picked o t acc =
      if 4 < pool.length ∧ picked < pool.length then
        match «match» pool (select_seed_weighted pool (o t)) n o (t + 1) with
        | .error e => .error e
        | .ok none => innerLoop pool n (picked + 1) o (t + 1) acc
        | .ok (some g) =>
            innerLoop (pool.filter fun q => ¬ q ∈ g) n (picked + 1) o (t + 1 + 4)
              (acc ++ [g.map Player.name])
      else .ok (pool, acc, picked, t) := by
  rw [innerLoop]
  simp only [dite_eq_ite]

theorem matchAllGo_eq (n : ℕ) (pool : List Player) (times : ℕ) (o : Oracle)
    (t : ℕ) (acc : List (List String)) :
    matchAllGo n pool times o t acc =
      if times < 5 ∧ 4 < pool.length then
        match innerLoop pool n 0 o t acc with
        | .error e => .error e
        | .ok (pool', acc', _, t') =>
            matchAllGo n (pool'.map bump) (times + 1) o t' acc'
      else .ok acc := by
  rw [matchAllGo]

/-! ### Invariant preservation through the loops -/

theorem goodState_step {pool g : List Player} {acc : List (List String)}
    (hgs : GoodState pool acc) (hglen : g.length = 5)
    (hgsub : ∀ x ∈ g, x ∈ pool) (hgnames : (g.map Player.name).Nodup) :
    GoodState (pool.filter fun q => ¬ q ∈ g) (acc ++ [g.map Player.name]) := by
  obtain ⟨hnames, hlens, hpw, hdisj⟩ := hgs
  have hsubnames : ∀ x ∈ (pool.filter fun q => ¬ q ∈ g).map Player.name,
      x ∈ pool.map Player.name :=
    fun x hx => ((List.filter_sublist pool).map Player.name).mem hx
  refine ⟨?_, ?_, ?_, ?_⟩
  · exact List.Nodup.sublist ((List.filter_sublist pool).map Player.name) hnames
  · intro g' hg'
    rcases List.mem_append.mp hg' with h | h
    · exact hlens g' h
    · have : g' = g.map Player.name := by simpa using h
      subst this
      exact ⟨by simp [hglen], hgnames⟩
  · rw [List.pairwise_append]
    refine ⟨hpw, List.pairwise_singleton _ _, ?_⟩
    intro a ha b hb x hx
    have hbeq : b = g.map Player.name := by simpa using hb
    subst hbeq
    intro hxb
    rcases List.mem_map.mp hxb with ⟨y, hy, rfl⟩
    exact hdisj a ha _ hx (List.mem_map_of_mem _ (hgsub y hy))
  · intro g' hg' x hx hxmem
    rcases List.mem_append.mp hg' with h | h
    · exact hdisj g' h x hx (hsubnames x hxmem)
    · have : g' = g.map Player.name := by simpa using h
      subst this
      rcases List.mem_map.mp hx with ⟨y, hy, rfl⟩
      rcases List.mem_map.mp hxmem with ⟨z, hz, hzy⟩
      have hzpool := (List.mem_filter.mp hz).1
      have hznot : z ∉ g := by
        have := (List.mem_filter.mp hz).2
        simpa using this
      have : z = y := name_inj_of_nodup hnames z hzpool y (hgsub y hy) hzy
      exact hznot (this ▸ hy)

theorem innerLoop_main :
    ∀ (m : ℕ) (pool : List Player) (n picked : ℕ) (o : Oracle) (t : ℕ)
      (acc : List (List String)) (p' : List Player) (acc' : List (List String))
      (k' t' : ℕ),
      pool.length - picked ≤ m →
      innerLoop pool n picked o t acc = .ok (p', acc', k', t') →
      p'.Sublist pool ∧ k' ≤ max picked pool.length ∧
        (GoodState pool acc → GoodState p' acc') := by
  intro m
  induction m with
  | zero =>
    intro pool n picked o t acc p' acc' k' t' hm h
    rw [innerLoop_eq, if_neg (by omega)] at h
    simp only [Except.ok.injEq, Prod.mk.injEq] at h
    obtain ⟨rfl, rfl, rfl, rfl⟩ := h
    exact ⟨List.Sublist.refl _, le_max_left _ _, id⟩
  | succ m ih =>
    intro pool n picked o t acc p' acc' k' t' hm h
    rw [innerLoop_eq] at h
    by_cases hguard : 4 < pool.length ∧ picked < pool.length
    · rw [if_pos hguard] at h
      cases hmz : «match» pool (select_seed_weighted pool (o t)) n o (t + 1) with
      | error e =>
        rw [hmz] at h
        simp at h
      | ok og =>
        rw [hmz] at h
        cases og with
        | none =>
          dsimp only [] at h
          have hrec := ih pool n (picked + 1) o (t + 1) acc p' acc' k' t' (by omega) h
          refine ⟨hrec.1, ?_, hrec.2.2⟩
          have := hrec.2.1
          have hple : picked + 1 ≤ pool.length := hguard.2
          omega
        | some g =>
          dsimp only [] at h
          have hfl : (pool.filter fun q => ¬ q ∈ g).length ≤ pool.length :=
            List.length_filter_le _ _
          have hrec := ih (pool.filter fun q => ¬ q ∈ g) n (picked + 1) o (t + 1 + 4)
            (acc ++ [g.map Player.name]) p' acc' k' t' (by omega) h
          refine ⟨hrec.1.trans (List.filter_sublist _), ?_, ?_⟩
          · have := hrec.2.1
            have hple : picked + 1 ≤ pool.length := hguard.2
            omega
          · intro hgs
            have hs : select_seed_weighted pool (o t) < pool.length :=
              select_seed_lt pool (o t) (by omega)
            obtain ⟨hglen, -, hgsub, hgnames, -⟩ := match_some_spec hs hgs.1 hmz
            exact hrec.2.2 (goodState_step hgs hglen hgsub hgnames)
    · rw [if_neg hguard] at h
      simp only [Except.ok.injEq, Prod.mk.injEq] at h
      obtain ⟨rfl, rfl, rfl, rfl⟩ := h
      exact ⟨List.Sublist.refl _, le_max_left _ _, id⟩

theorem goodState_bump {pool : List Player} {acc : List (List String)}
    (h : GoodState pool acc) : GoodState (pool.map bump) acc := by
  obtain ⟨hnames, hlens, hpw, hdisj⟩ := h
  have hb : Player.name ∘ bump = Player.name := funext fun p => rfl
  refine ⟨?_, hlens, hpw, ?_⟩
  · rw [List.map_map, hb]
    exact hnames
  · intro g hg x hx
    rw [List.map_map, hb]
    exact hdisj g hg x hx

theorem matchAllGo_main :
    ∀ (m n : ℕ) (pool : List Player) (times : ℕ) (o : Oracle) (t : ℕ)
      (acc ms : List (List String)),
      5 - times ≤ m →
      matchAllGo n pool times o t acc = .ok ms →
      GoodState pool acc →
      (∀ g ∈ ms, g.length = 5 ∧ g.Nodup) ∧
        List.Pairwise (fun g₁ g₂ => ∀ x ∈ g₁, x ∉ g₂) ms := by
  intro m
  induction m with
  | zero =>
    intro n pool times o t acc ms hm h hgs
    rw [matchAllGo_eq, if_neg (by omega)] at h
    simp only [Except.ok.injEq] at h
    subst h
    exact ⟨hgs.2.1, hgs.2.2.1⟩
  | succ m ih =>
    intro n pool times o t acc ms hm h hgs
    rw [matchAllGo_eq] at h
    by_cases hguard : times < 5 ∧ 4 < pool.length
    · rw [if_pos hguard] at h
      cases hr : innerLoop pool n 0 o t acc with
      | error e =>
        rw [hr] at h
        simp at h
      | ok r =>
        obtain ⟨p', acc', k', t'⟩ := r
        rw [hr] at h
        dsimp only [] at h
        have hil := innerLoop_main pool.length pool n 0 o t acc p' acc' k' t'
          (by omega) hr
        exact ih n (p'.map bump) (times + 1) o t' acc' ms (by omega) h
          (goodState_bump (hil.2.2 hgs))
    · rw [if_neg hguard] at h
      simp only [Except.ok.injEq] at h
      subst h
      exact ⟨hgs.2.1, hgs.2.2.1⟩

/-! ### Pool subtraction -/

theorem length_filter_add_not {α : Type} (l : List α) (p q : α → Bool)
    (hpq : ∀ a ∈ l, p a = !q a) :
    (l.filter p).length + (l.filter q).length = l.length := by
  induction l with
  | nil => rfl
  | cons a l ih =>
    have ha := hpq a (List.mem_cons_self a l)
    have ih' := ih fun x hx => hpq x (List.mem_cons_of_mem a hx)
    cases hq : q a with
    | false =>
      rw [List.filter_cons_of_pos (by simp [ha, hq]),
        List.filter_cons_of_neg (by simp [hq])]
      simp only [List.length_cons]
      omega
    | true =>
      rw [List.filter_cons_of_neg (by simp [ha, hq]),
        List.filter_cons_of_pos (by simp [hq])]
      simp only [List.length_cons]
      omega

theorem length_filter_not_mem {pool g : List Player} (hsub : ∀ x ∈ g, x ∈ pool)
    (hgnd : g.Nodup) (hpool : pool.Nodup) :
    (pool.filter fun q => ¬ q ∈ g).length + g.length = pool.length := by
  have hperm : List.Perm (pool.filter fun q => q ∈ g) g := by
    rw [List.perm_ext_iff_of_nodup (hpool.filter _) hgnd]
    intro a
    rw [List.mem_filter]
    constructor
    · intro h
      simpa using h.2
    · intro h
      exact ⟨hsub a h, by simpa using h⟩
  have hsplit : (pool.filter fun q => q ∈ g).length +
      (pool.filter fun q => ¬ q ∈ g).length = pool.length :=
    length_filter_add_not pool _ _ fun a _ => by simp
  rw [hperm.length_eq] at hsplit
  omega

/-- C5: for a run over players with unique handles, every emitted group has
exactly 5 distinct identities, no identity appears in two groups of the same
run, and each group formation removes exactly the group's five members from
the pool (the pool update is the filter of line 82, which with unique handles
removes exactly those five records). -/
theorem c5_groups_partition (ps : List Player) (o : Oracle)
    (ms : List (List String)) (hnd : (ps.map Player.name).Nodup)
    (hrun : match_all ps o = .ok ms) :
    ((∀ g ∈ ms, g.length = 5 ∧ g.Nodup) ∧
      List.Pairwise (fun g₁ g₂ => ∀ x ∈ g₁, x ∉ g₂) ms) ∧
    ∀ (pool : List Player) (s n : ℕ) (o' : Oracle) (t : ℕ) (g : List Player),
      (pool.map Player.name).Nodup → s < pool.length →
      «match» pool s n o' t = .ok (some g) →
      (∀ x ∈ g, x ∈ pool) ∧
        (pool.filter fun q => ¬ q ∈ g).length + 5 = pool.length := by
  constructor
  · unfold match_all at hrun
    exact matchAllGo_main 5 ps.length ps 0 o 0 [] ms (by omega) hrun
      ⟨hnd, by simp, by simp, by simp⟩
  · intro pool s n o' t g hnd' hs hm
    obtain ⟨hglen, hgnd, hgsub, -, -⟩ := match_some_spec hs hnd' hm
    have hpool : pool.Nodup := List.Nodup.of_map Player.name hnd'
    have := length_filter_not_mem hgsub hgnd hpool
    rw [hglen] at this
    exact ⟨hgsub, this⟩

/-- Witness for C5 at a concrete input: the empty population with the
all-zeros oracle runs to the empty list of groups. -/
theorem c5_groups_partition_witness :
    List.Pairwise (fun g₁ g₂ => ∀ x ∈ g₁, x ∉ g₂) ([] : List (List String)) :=
  (c5_groups_partition [] o₀ [] (by simp)
    (by unfold match_all; rw [matchAllGo_eq, if_neg (by simp)])).1.2

/-- C7: a group-formation attempt yields `.ok none` — a no-result, not an
exception — exactly when fewer than 4 eligible companions (in-gate players
other than the seed) exist; and on such a failure the inner loop keeps the
pool unchanged, merely counting the attempt. -/
theorem c7_no_result_iff_few_companions (ps : List Player) (s n : ℕ)
    (o : Oracle) (t : ℕ) (hs : s < ps.length) :
    («match» ps s n o t = .ok none ↔ eligibleCompanions (sortPool ps) s n < 4) ∧
    (∀ (pool : List Player) (n' k : ℕ) (o' : Oracle) (t' : ℕ)
        (acc : List (List String)),
      4 < pool.length → k < pool.length →
      «match» pool (select_seed_weighted pool (o' t')) n' o' (t' + 1) = .ok none →
      innerLoop pool n' k o' t' acc = innerLoop pool n' (k + 1) o' (t' + 1) acc) := by
  constructor
  · rw [match_ok_none_iff]
    have hs' : s < (sortPool ps).length := by
      rw [sortPool_length]
      exact hs
    rw [possiblePlayers_eq n hs']
    omega
  · intro pool n' k o' t' acc h1 h2 hmz
    rw [innerLoop_eq, if_pos ⟨h1, h2⟩, hmz]

/-- Witness for C7 at a concrete input: in the two-player pool `P2` the seed
has at most one companion, so the attempt is a no-result. -/
theorem c7_no_result_iff_few_companions_witness :
    «match» P2 0 1 o₀ 0 = .ok none :=
  (c7_no_result_iff_few_companions P2 0 1 o₀ 0 (by simp [P2])).1.mpr
    (by
      have : eligibleCompanions (sortPool P2) 0 1 ≤ (sortPool P2).length := by
        unfold eligibleCompanions
        calc ((List.range (sortPool P2).length).filter _).length
            ≤ (List.range (sortPool P2).length).length := List.length_filter_le _ _
        _ = (sortPool P2).length := List.length_range _
      have hlen : (sortPool P2).length = 2 := by
        rw [sortPool_length]
        simp [P2]
      omega)

/-- C8: the pool that survives a round is a sublist of the round's starting
pool, and after the end-of-round aging (line 85) every surviving player is a
starting player with the waited-counter incremented by exactly 1 and all
other fields unchanged; in particular a waited-counter never decreases. -/
theorem c8_round_increments_waited (pool : List Player) (n : ℕ) (o : Oracle)
    (t : ℕ) (acc : List (List String)) (p' : List Player)
    (acc' : List (List String)) (k' t' : ℕ)
    (h : innerLoop pool n 0 o t acc = .ok (p', acc', k', t')) :
    p'.Sublist pool ∧
    ∀ q ∈ p'.map bump, ∃ x ∈ pool,
      q.name = x.name ∧ q.elo = x.elo ∧ q.waited = x.waited + 1 := by
  have hmain := innerLoop_main pool.length pool n 0 o t acc p' acc' k' t'
    (by omega) h
  refine ⟨hmain.1, fun q hq => ?_⟩
  rcases List.mem_map.mp hq with ⟨y, hy, rfl⟩
  exact ⟨y, hmain.1.mem hy, rfl, rfl, rfl⟩

/-- Witness for C8 at a concrete input: the empty pool leaves the inner loop
immediately. -/
theorem c8_round_increments_waited_witness :
    ([] : List Player).Sublist ([] : List Player) ∧
    ∀ q ∈ ([] : List Player).map bump, ∃ x ∈ ([] : List Player),
      q.name = x.name ∧ q.elo = x.elo ∧ q.waited = x.waited + 1 :=
  c8_round_increments_waited [] 0 o₀ 0 [] [] [] 0 0
    (by rw [innerLoop_eq, if_neg (by simp)])

/-- C9: the driver terminates — the embedding is structurally total — with
the round counter capped at 5 (`matchAllGo` at `times = 5` stops), an
immediate empty answer when the population is 4 or fewer, and each round's
attempt counter bounded by the round's starting pool size while the pool
never grows. -/
theorem c9_termination_bounds :
    (∀ (pool : List Player) (n : ℕ) (o : Oracle) (t : ℕ)
        (acc : List (List String)) (p' : List Player)
        (acc' : List (List String)) (k' t' : ℕ),
      innerLoop pool n 0 o t acc = .ok (p', acc', k', t') →
      k' ≤ pool.length ∧ p'.length ≤ pool.length) ∧
    (∀ (ps : List Player) (o : Oracle), ps.length ≤ 4 → match_all ps o = .ok []) ∧
    (∀ (n : ℕ) (pool : List Player) (o : Oracle) (t : ℕ)
        (acc : List (List String)), matchAllGo n pool 5 o t acc = .ok acc) := by
  refine ⟨?_, ?_, ?_⟩
  · intro pool n o t acc p' acc' k' t' h
    have hmain := innerLoop_main pool.length pool n 0 o t acc p' acc' k' t'
      (by omega) h
    have h1 := hmain.2.1
    have h2 := hmain.1.length_le
    constructor
    · omega
    · exact h2
  · intro ps o hle
    unfold match_all
    rw [matchAllGo_eq, if_neg (by omega)]
  · intro n pool o t acc
    rw [matchAllGo_eq, if_neg (by omega)]

/-- Witness for C9 at a concrete input: the empty pool. -/
theorem c9_termination_bounds_witness :
    (0 : ℕ) ≤ ([] : List Player).length ∧
      ([] : List Player).length ≤ ([] : List Player).length :=
  c9_termination_bounds.1 [] 0 o₀ 0 [] [] [] 0 0
    (by rw [innerLoop_eq, if_neg (by simp)])

/-- C10: every companion drawn into a group satisfies the elo gate with
respect to the seed of that attempt: gated-out candidates carry probability
0 at every draw, and `np.random.choice` never yields a zero-probability
index.  The seed index is in range, as it always is when the driver calls
`match`. -/
theorem c10_drawn_companions_in_gate (ps : List Player) (s n : ℕ) (o : Oracle)
    (t : ℕ) (g : List Player) (q : Player) (hs : s < ps.length)
    (hg : «match» ps s n o t = .ok (some g)) (hq : q ∈ g.tail) :
    |q.elo - ((sortPool ps).getD s default).elo| ≤ gateBound (sortPool ps) s n := by
  obtain ⟨rfl, h5, -⟩ := match_ok_some_inv hg
  have hs' : s < (sortPool ps).length := by
    rw [sortPool_length]
    exact hs
  obtain ⟨-, -, hmem4⟩ := sampleIdx_probs_spec o t hs' h5
  have htail : (matchGroup ps s n o t).tail =
      (sampleIdx 4 (probs (sortPool ps) s n) o t).map
        fun i => (sortPool ps).getD i default := rfl
  rw [htail] at hq
  rcases List.mem_map.mp hq with ⟨i, hi, rfl⟩
  exact not_lt.mp (hmem4 i hi).2.2

/-- C6: the elo gate is boundary-inclusive and its width uses the original
population size `n`, fixed for the whole run: a player's index is counted
eligible iff its absolute rating difference from the seed is at most
`100·(10·e^(−0.3n)+1)·(waited_seed+1)`, and the driver fixes `n` to the
initial population size before any round. -/
theorem c6_gate_inclusive_fixed_n (ps : List Player) (s n i : ℕ)
    (hn : 1 ≤ n) (hi : i < ps.length) :
    (i ∈ eligibleIdx ps s n ↔
      |(ps.getD i default).elo - (ps.getD s default).elo| ≤
        100 * (10 * Real.exp (-(0.3) * n) + 1) * ((ps.getD s default).waited + 1)) ∧
    ∀ (qs : List Player) (o : Oracle), match_all qs o = matchAllGo qs.length qs 0 o 0 [] := by
  constructor
  · unfold eligibleIdx
    rw [List.mem_filter]
    constructor
    · intro h
      have h2 : ¬ (|(ps.getD i default).elo - (ps.getD s default).elo| >
          gateBound ps s n) := by simpa using h.2
      have := not_lt.mp h2
      unfold gateBound ELO_RANGE search_adj at this
      exact this
    · intro h
      refine ⟨List.mem_range.mpr hi, ?_⟩
      simp only [decide_eq_true_eq]
      rw [not_lt]
      unfold gateBound ELO_RANGE search_adj
      exact h
  · intro qs o
    rfl

/-- Witness for C6 at a concrete input: in `Pb` the second player sits
exactly at the gate-boundary distance from the seed and is eligible. -/
theorem c6_gate_inclusive_fixed_n_witness : 1 ∈ eligibleIdx Pb 0 1 :=
  (c6_gate_inclusive_fixed_n Pb 0 1 1 le_rfl (by simp [Pb])).1.mpr
    (by
      have h1 : (Pb.getD 1 default).elo = ELO_RANGE * search_adj 1 * 1 := by
        simp [Pb]
      have h0 : (Pb.getD 0 default).elo = 0 := by simp [Pb]
      have h0w : ((Pb.getD 0 default).waited : ℝ) = 0 := by simp [Pb]
      rw [h1, h0, h0w, sub_zero]
      have hpos : (0 : ℝ) ≤ ELO_RANGE * search_adj 1 * 1 := by
        have := search_adj_pos 1
        unfold ELO_RANGE
        nlinarith
      rw [abs_of_nonneg hpos]
      unfold ELO_RANGE search_adj
      push_cast
      ring_nf
      nlinarith [Real.exp_pos (-(0.3) * (1 : ℝ))])

/-! ### Helpers for concrete evaluations -/

theorem gateBound_w0_bounds (ps : List Player) (s n : ℕ)
    (hw : (ps.getD s default).waited = 0) (hn : 1 ≤ n) :
    100 < gateBound ps s n ∧ gateBound ps s n < 1100 := by
  unfold gateBound ELO_RANGE search_adj
  rw [hw]
  have h1 : 0 < Real.exp (-(0.3) * n) := Real.exp_pos _
  have h2 : Real.exp (-(0.3) * n) < 1 := by
    rw [← Real.exp_zero]
    apply Real.exp_lt_exp.mpr
    have hn' : (1 : ℝ) ≤ n := by exact_mod_cast hn
    nlinarith
  push_cast
  constructor <;> nlinarith

theorem npStd_pos {xs : List ℝ} {a b : ℝ} (ha : a ∈ xs) (hb : b ∈ xs)
    (hab : a ≠ b) : 0 < npStd xs := by
  unfold npStd mean
  rw [Real.sqrt_pos]
  apply div_pos
  · have hnonneg : ∀ x ∈ xs.map (fun x => (x - (xs.sum / xs.length)) ^ 2), 0 ≤ x := by
      intro x hx
      rcases List.mem_map.mp hx with ⟨y, _, rfl⟩
      positivity
    by_cases hA : a = xs.sum / xs.length
    · have hB : b ≠ xs.sum / xs.length := fun h => hab (hA.trans h.symm)
      have hpos : 0 < (b - xs.sum / xs.length) ^ 2 :=
        pow_two_pos_of_ne_zero (sub_ne_zero.mpr hB)
      have hle := List.single_le_sum hnonneg _
        (List.mem_map_of_mem (fun x => (x - (xs.sum / xs.length)) ^ 2) hb)
      linarith
    · have hpos : 0 < (a - xs.sum / xs.length) ^ 2 :=
        pow_two_pos_of_ne_zero (sub_ne_zero.mpr hA)
      have hle := List.single_le_sum hnonneg _
        (List.mem_map_of_mem (fun x => (x - (xs.sum / xs.length)) ^ 2) ha)
      linarith
  · rw [List.length_map]
    have : 0 < xs.length := List.length_pos.mpr (List.ne_nil_of_mem ha)
    exact_mod_cast this

/-- With the all-zeros oracle, each draw takes the first positive-probability
index, so `k` draws walk the first `k` of them. -/
theorem sampleIdx_const_zero :
    ∀ (k : ℕ) (p : List ℝ) (t : ℕ), (∀ x ∈ p, 0 ≤ x) →
      k ≤ (posIndices p).length →
      sampleIdx k p o₀ t = (posIndices p).take k := by
  intro k
  induction k with
  | zero => intro p t _ _; simp [sampleIdx]
  | succ k ih =>
    intro p t hp hk
    cases hL : posIndices p with
    | nil => rw [hL] at hk; simp at hk
    | cons a L =>
      have hc : npChoice p (o₀ t) = a := by
        unfold npChoice o₀
        rw [hL]
        have : 0 % (a :: L).length = 0 := Nat.zero_mod _
        rw [this]
        rfl
      have hamem : a ∈ posIndices p := by rw [hL]; exact List.mem_cons_self a L
      have hpos' : posIndices (renorm (p.set a 0)) = L := by
        rw [posIndices_renorm, posIndices_set_zero hamem, hL, List.erase_cons_head]
      have hrec := ih (renorm (p.set a 0)) (t + 1)
        (renorm_nonneg (set_zero_nonneg hp a)) (by rw [hpos']; rw [hL] at hk; simpa using Nat.lt_succ_iff.mp (Nat.lt_of_lt_of_le (Nat.lt_succ_self k) hk))
      rw [sampleIdx, hc, hrec, hpos', List.take_succ_cons]

/-! ### Entry formulas for the standardized distances -/

theorem eloDiffsStd_getD {ps : List Player} {s i : ℕ} (hi : i < ps.length) :
    (eloDiffsStd ps s).getD i 0 =
      |((ps.getD i default).elo - (ps.getD s default).elo) / npStd (eloDiffs ps s)| := by
  unfold eloDiffsStd
  rw [List.getD_eq_getElem?_getD, List.getElem?_map]
  unfold eloDiffs
  rw [List.getElem?_map, List.getElem?_eq_getElem hi]
  simp only [Option.map_some', Option.getD_some]
  rw [List.getD_eq_getElem _ _ hi]

theorem specBaseScores_getD_ne {ps : List Player} {s i n : ℕ}
    (hi : i < ps.length) (hne : i ≠ s) :
    (specBaseScores ps s n).getD i 0 =
      score (Nat.dist i s) ((eloDiffsStd ps s).getD i 0) n := by
  rw [specBaseScores, List.getD_eq_getElem?_getD,
    List.getElem?_set_ne (fun h => hne h.symm), List.getElem?_map,
    List.getElem?_range hi]
  rfl

/-- C2 counterexample: on the three-player pool `P3` the code's base scores
(computed with `ln(len(players)) = ln 3`) differ from the spec's formula
with the original population parameter `n = 10`: entry 2 is
`1/2^(ln 3 · d)` in the code but `1/2^(ln 10 · d)` per the spec. -/
theorem c2_counterexample : specBaseScores P3 0 10 ≠ baseScores P3 0 := by
  intro heq
  have h2 := congrArg (fun l => l.getD 2 0) heq
  simp only [] at h2
  have hi : (2 : ℕ) < P3.length := by norm_num [P3]
  rw [specBaseScores_getD_ne hi (by norm_num), baseScores_getD_ne hi (by norm_num)] at h2
  have hel : eloDiffs P3 0 = [0, 1, 2] := by norm_num [eloDiffs, P3]
  have hstd : 0 < npStd (eloDiffs P3 0) := by
    rw [hel]
    exact npStd_pos (by norm_num) (by norm_num) (by norm_num : (0:ℝ) ≠ 1)
  have hd : 0 < (eloDiffsStd P3 0).getD 2 0 := by
    rw [eloDiffsStd_getD hi]
    have he2 : (P3.getD 2 default).elo = 2 := by norm_num [P3]
    have he0 : (P3.getD 0 default).elo = 0 := by norm_num [P3]
    rw [he2, he0, sub_zero]
    rw [abs_pos]
    exact div_ne_zero (by norm_num) hstd.ne'
  set d := (eloDiffsStd P3 0).getD 2 0 with hdd
  unfold score at h2
  have hdist : (Nat.dist 2 0 : ℝ) = 2 := by norm_num [Nat.dist]
  have hlen : (P3.length : ℝ) = 3 := by norm_num [P3]
  rw [hdist, hlen] at h2
  push_cast at h2
  have hlt : Real.log 3 * d < Real.log 10 * d :=
    mul_lt_mul_of_pos_right (Real.log_lt_log (by norm_num) (by norm_num)) hd
  have hrp : (2 : ℝ) ^ (Real.log 3 * d) < 2 ^ (Real.log 10 * d) :=
    (Real.rpow_lt_rpow_left_iff (by norm_num)).mpr hlt
  have h1 : 1 / (2 : ℝ) ^ (Real.log 10 * d) < 1 / 2 ^ (Real.log 3 * d) :=
    one_div_lt_one_div_of_lt (Real.rpow_pos_of_pos (by norm_num) _) hrp
  rw [h2] at h1
  exact lt_irrefl _ h1

/-- C2 amended: each candidate's base score is `1 / R_i ^ (d_i · ln L)`
where `L` is the **current pool size** `len(players)` (not the run's
original population `n`, which the scorer never uses), with
`d_i = |Δ_i / std(Δ)|`; the seed's own score is forced to 0. -/
theorem c2_base_score_uses_pool_size (ps : List Player) (s i : ℕ)
    (hi : i < ps.length) :
    (baseScores ps s).getD i 0 =
      (if i = s then 0
       else 1 / (Nat.dist i s : ℝ) ^
         (Real.log ps.length *
           |((ps.getD i default).elo - (ps.getD s default).elo) /
             npStd (eloDiffs ps s)|)) := by
  by_cases h : i = s
  · subst h
    rw [baseScores_getD_seed hi, if_pos rfl]
  · rw [baseScores_getD_ne hi h, if_neg h, eloDiffsStd_getD hi]
    rfl

/-- Witness for the amended C2 at a concrete input. -/
theorem c2_base_score_uses_pool_size_witness :
    (baseScores P3 0).getD 1 0 =
      (if (1 : ℕ) = 0 then 0
       else 1 / (Nat.dist 1 0 : ℝ) ^
         (Real.log P3.length *
           |((P3.getD 1 default).elo - (P3.getD 0 default).elo) /
             npStd (eloDiffs P3 0)|)) :=
  c2_base_score_uses_pool_size P3 0 1 (by norm_num [P3])

/-! ### Concrete evaluation: the five close players of `pool5` -/

theorem sortPool_pool5 : sortPool pool5 = pool5s := by
  norm_num [sortPool, pool5, pool5s, List.insertionSort, List.orderedInsert]

theorem eligibleIdx_pool5s : eligibleIdx pool5s 0 5 = [0, 1, 2, 3, 4] := by
  obtain ⟨hB1, -⟩ := gateBound_w0_bounds pool5s 0 5 (by norm_num [pool5s]) (by norm_num)
  unfold eligibleIdx
  rw [show pool5s.length = 5 from by norm_num [pool5s],
    show List.range 5 = [0, 1, 2, 3, 4] from rfl]
  have e0 : (pool5s.getD 0 default).elo = 1500 := by norm_num [pool5s]
  have e1 : (pool5s.getD 1 default).elo = 1510 := by norm_num [pool5s]
  have e2 : (pool5s.getD 2 default).elo = 1520 := by norm_num [pool5s]
  have e3 : (pool5s.getD 3 default).elo = 1530 := by norm_num [pool5s]
  have e4 : (pool5s.getD 4 default).elo = 1550 := by norm_num [pool5s]
  rw [List.filter_cons_of_pos (by
      simp only [decide_eq_true_eq, e0]
      rw [sub_self, abs_zero]
      intro hcon
      linarith),
    List.filter_cons_of_pos (by
      simp only [decide_eq_true_eq, e0, e1]
      rw [show (1510 : ℝ) - 1500 = 10 by norm_num,
        abs_of_nonneg (by norm_num : (0:ℝ) ≤ 10)]
      intro hcon
      linarith),
    List.filter_cons_of_pos (by
      simp only [decide_eq_true_eq, e0, e2]
      rw [show (1520 : ℝ) - 1500 = 20 by norm_num,
        abs_of_nonneg (by norm_num : (0:ℝ) ≤ 20)]
      intro hcon
      linarith),
    List.filter_cons_of_pos (by
      simp only [decide_eq_true_eq, e0, e3]
      rw [show (1530 : ℝ) - 1500 = 30 by norm_num,
        abs_of_nonneg (by norm_num : (0:ℝ) ≤ 30)]
      intro hcon
      linarith),
    List.filter_cons_of_pos (by
      simp only [decide_eq_true_eq, e0, e4]
      rw [show (1550 : ℝ) - 1500 = 50 by norm_num,
        abs_of_nonneg (by norm_num : (0:ℝ) ≤ 50)]
      intro hcon
      linarith)]
  rfl

theorem possiblePlayers_pool5 : possiblePlayers (sortPool pool5) 0 5 = 5 := by
  rw [sortPool_pool5]
  unfold possiblePlayers
  rw [eligibleIdx_pool5s]
  rfl

theorem npStd_pool5s_pos : 0 < npStd (eloDiffs pool5s 0) := by
  have hel : eloDiffs pool5s 0 = [0, 10, 20, 30, 50] := by
    norm_num [eloDiffs, pool5s]
  rw [hel]
  exact npStd_pos (by norm_num) (by norm_num) (by norm_num : (0:ℝ) ≠ 10)

theorem match_pool5_eval :
    «match» pool5 0 5 o₀ 0 = .ok (some (matchGroup pool5 0 5 o₀ 0)) := by
  unfold «match»
  rw [possiblePlayers_pool5, if_neg (by norm_num), sortPool_pool5,
    if_neg npStd_pool5s_pos.ne']

/-- C1 counterexample: on the unsorted pool `pool5`, seed index 0, a group
is produced whose first element is the player at index 0 of the **sorted**
pool (`"b"`, rating 1500), not the player at index 0 of the input list
(`"a"`, rating 1550): after line 32 re-sorts, `players[seed_i]` denotes a
different player than in the caller's list. -/
theorem c1_counterexample :
    «match» pool5 0 5 o₀ 0 = .ok (some (matchGroup pool5 0 5 o₀ 0)) ∧
    (matchGroup pool5 0 5 o₀ 0).head? = some (⟨"b", 1500, 0⟩ : Player) ∧
    pool5.getD 0 default = (⟨"a", 1550, 0⟩ : Player) ∧
    (⟨"b", 1500, 0⟩ : Player) ≠ (⟨"a", 1550, 0⟩ : Player) := by
  refine ⟨match_pool5_eval, ?_, by norm_num [pool5], ?_⟩
  · have hh : (matchGroup pool5 0 5 o₀ 0).head? =
        some ((sortPool pool5).getD 0 default) := rfl
    rw [hh, sortPool_pool5]
    norm_num [pool5s]
  · intro h
    have := congrArg Player.name h
    simp at this

/-- C1 amended: rank distances are computed from the seed's index taken in
the **sorted** pool, and a produced group's first element is the element at
index `seed_i` of the sorted pool — which, when the input list is not
already sorted by rating, is generally not the element at that index of the
unsorted input list. -/
theorem c1_group_head_is_sorted_seed (ps : List Player) (s n : ℕ) (o : Oracle)
    (t : ℕ) (g : List Player) (h : «match» ps s n o t = .ok (some g)) :
    g.head? = some ((sortPool ps).getD s default) := by
  obtain ⟨rfl, -, -⟩ := match_ok_some_inv h
  rfl

/-- Witness for the amended C1 at a concrete input. -/
theorem c1_group_head_is_sorted_seed_witness :
    (matchGroup pool5 0 5 o₀ 0).head? = some ((sortPool pool5).getD 0 default) :=
  c1_group_head_is_sorted_seed pool5 0 5 o₀ 0 _ match_pool5_eval

/-- Witness for C10 at a concrete input: the first companion drawn for the
seed of `pool5` is within the gate. -/
theorem c10_drawn_companions_in_gate_witness :
    |(((sortPool pool5).getD
        (npChoice (probs (sortPool pool5) 0 5) (o₀ 0)) default)).elo -
      ((sortPool pool5).getD 0 default).elo| ≤ gateBound (sortPool pool5) 0 5 := by
  refine c10_drawn_companions_in_gate pool5 0 5 o₀ 0 (matchGroup pool5 0 5 o₀ 0)
    _ (by norm_num [pool5]) match_pool5_eval ?_
  have htail : (matchGroup pool5 0 5 o₀ 0).tail =
      (sampleIdx 4 (probs (sortPool pool5) 0 5) o₀ 0).map
        (fun i => (sortPool pool5).getD i default) := rfl
  rw [htail]
  refine List.mem_map_of_mem _ ?_
  rw [show sampleIdx 4 (probs (sortPool pool5) 0 5) o₀ 0 =
      npChoice (probs (sortPool pool5) 0 5) (o₀ 0) ::
        sampleIdx 3 (renorm ((probs (sortPool pool5) 0 5).set
          (npChoice (probs (sortPool pool5) 0 5) (o₀ 0)) 0)) o₀ (0 + 1) from rfl]
  exact List.mem_cons_self _ _

/-! ### Concrete evaluation: five identical ratings (`I5`) -/

theorem sortPool_I5 : sortPool I5 = I5 := by
  norm_num [sortPool, I5, List.insertionSort, List.orderedInsert]

theorem eligibleIdx_I5 : eligibleIdx I5 0 5 = [0, 1, 2, 3, 4] := by
  have hB := gateBound_pos I5 0 5
  unfold eligibleIdx
  rw [show I5.length = 5 from by norm_num [I5],
    show List.range 5 = [0, 1, 2, 3, 4] from rfl]
  have e0 : (I5.getD 0 default).elo = 1500 := by norm_num [I5]
  have e1 : (I5.getD 1 default).elo = 1500 := by norm_num [I5]
  have e2 : (I5.getD 2 default).elo = 1500 := by norm_num [I5]
  have e3 : (I5.getD 3 default).elo = 1500 := by norm_num [I5]
  have e4 : (I5.getD 4 default).elo = 1500 := by norm_num [I5]
  rw [List.filter_cons_of_pos (by
      simp only [decide_eq_true_eq, e0]
      rw [sub_self, abs_zero]
      exact not_lt.mpr hB.le),
    List.filter_cons_of_pos (by
      simp only [decide_eq_true_eq, e0, e1]
      rw [sub_self, abs_zero]
      exact not_lt.mpr hB.le),
    List.filter_cons_of_pos (by
      simp only [decide_eq_true_eq, e0, e2]
      rw [sub_self, abs_zero]
      exact not_lt.mpr hB.le),
    List.filter_cons_of_pos (by
      simp only [decide_eq_true_eq, e0, e3]
      rw [sub_self, abs_zero]
      exact not_lt.mpr hB.le),
    List.filter_cons_of_pos (by
      simp only [decide_eq_true_eq, e0, e4]
      rw [sub_self, abs_zero]
      exact not_lt.mpr hB.le)]
  rfl

theorem npStd_I5_zero : npStd (eloDiffs I5 0) = 0 := by
  have hel : eloDiffs I5 0 = [0, 0, 0, 0, 0] := by norm_num [eloDiffs, I5]
  rw [hel]
  norm_num [npStd, mean]

theorem match_I5_error (t : ℕ) : «match» I5 0 5 o₀ t = .error () := by
  unfold «match»
  rw [sortPool_I5]
  rw [if_neg (by
      unfold possiblePlayers
      rw [eligibleIdx_I5]
      norm_num),
    if_pos npStd_I5_zero]

theorem select_I5 (v : ℕ) : select_seed_weighted I5 v = v % 5 := by
  unfold select_seed_weighted
  rw [if_pos (by norm_num [I5]), show I5.length = 5 from by norm_num [I5]]

/-- C3: on a population of exactly 5 players with identical ratings and zero
waited-counters, the standard deviation of the rating differences is 0; the
code divides by it (line 36), producing `0/0 = NaN` standardized distances
that flow into the probability vector handed to `np.random.choice`, so no
group of 5 is produced — the run aborts on an invalid distribution instead
of treating the zero-deviation case as zero distance. -/
theorem c3_identical_ratings_nan :
    (∀ p ∈ I5, p.elo = 1500 ∧ p.waited = 0) ∧ I5.length = 5 ∧
    npStd (eloDiffs I5 0) = 0 ∧
    match_all I5 o₀ = .error () := by
  refine ⟨by
      intro p hp
      simp only [I5, List.mem_cons, List.not_mem_nil, or_false] at hp
      rcases hp with rfl | rfl | rfl | rfl | rfl <;> exact ⟨rfl, rfl⟩,
    by norm_num [I5], npStd_I5_zero, ?_⟩
  unfold match_all
  rw [show I5.length = 5 from by norm_num [I5], matchAllGo_eq,
    if_pos ⟨by norm_num, by norm_num [I5]⟩]
  have hinner : innerLoop I5 5 0 o₀ 0 [] = .error () := by
    rw [innerLoop_eq, if_pos ⟨by norm_num [I5], by norm_num [I5]⟩]
    rw [show select_seed_weighted I5 (o₀ 0) = 0 from by
      rw [select_I5]; rfl]
    rw [match_I5_error]
  rw [hinner]

/-! ### Concrete evaluation: the five far-apart players of `far5` -/

theorem sortPool_far5 : sortPool far5 = far5 := by
  norm_num [sortPool, far5, List.insertionSort, List.orderedInsert]

theorem eligibleIdx_far5 : eligibleIdx far5 0 10 = [0] := by
  obtain ⟨hB1, hB2⟩ := gateBound_w0_bounds far5 0 10 (by norm_num [far5]) (by norm_num)
  unfold eligibleIdx
  rw [show far5.length = 5 from by norm_num [far5],
    show List.range 5 = [0, 1, 2, 3, 4] from rfl]
  have e0 : (far5.getD 0 default).elo = 100000 := by norm_num [far5]
  have e1 : (far5.getD 1 default).elo = 200000 := by norm_num [far5]
  have e2 : (far5.getD 2 default).elo = 300000 := by norm_num [far5]
  have e3 : (far5.getD 3 default).elo = 400000 := by norm_num [far5]
  have e4 : (far5.getD 4 default).elo = 500000 := by norm_num [far5]
  rw [List.filter_cons_of_pos (by
      simp only [decide_eq_true_eq, e0]
      rw [sub_self, abs_zero]
      intro hcon
      linarith),
    List.filter_cons_of_neg (by
      simp only [decide_eq_true_eq, not_not, e0, e1]
      rw [show (200000 : ℝ) - 100000 = 100000 by norm_num,
        abs_of_nonneg (by norm_num : (0:ℝ) ≤ 100000)]
      linarith),
    List.filter_cons_of_neg (by
      simp only [decide_eq_true_eq, not_not, e0, e2]
      rw [show (300000 : ℝ) - 100000 = 200000 by norm_num,
        abs_of_nonneg (by norm_num : (0:ℝ) ≤ 200000)]
      linarith),
    List.filter_cons_of_neg (by
      simp only [decide_eq_true_eq, not_not, e0, e3]
      rw [show (400000 : ℝ) - 100000 = 300000 by norm_num,
        abs_of_nonneg (by norm_num : (0:ℝ) ≤ 300000)]
      linarith),
    List.filter_cons_of_neg (by
      simp only [decide_eq_true_eq, not_not, e0, e4]
      rw [show (500000 : ℝ) - 100000 = 400000 by norm_num,
        abs_of_nonneg (by norm_num : (0:ℝ) ≤ 400000)]
      linarith)]
  rfl

theorem match_far5_none (t : ℕ) : «match» far5 0 10 o₀ t = .ok none := by
  unfold «match»
  rw [sortPool_far5]
  rw [if_pos (by
    unfold possiblePlayers
    rw [eligibleIdx_far5]
    norm_num)]

theorem select_far5 (v : ℕ) : select_seed_weighted far5 v = v % 5 := by
  unfold select_seed_weighted
  rw [if_pos (by norm_num [far5]), show far5.length = 5 from by norm_num [far5]]

theorem innerLoop_far5 :
    ∀ (m k t : ℕ) (acc : List (List String)), k + m = 5 → 1 ≤ k →
      innerLoop far5 10 k o₀ t acc = .ok (far5, acc, 5, t + m) := by
  intro m
  induction m with
  | zero =>
    intro k t acc hk _
    rw [innerLoop_eq, if_neg (by
      rw [show far5.length = 5 from by norm_num [far5]]
      omega)]
    have : k = 5 := by omega
    rw [this, Nat.add_zero]
  | succ m ih =>
    intro k t acc hk hk1
    rw [innerLoop_eq, if_pos (by
      rw [show far5.length = 5 from by norm_num [far5]]
      omega)]
    rw [show select_seed_weighted far5 (o₀ t) = 0 from by rw [select_far5]; rfl]
    rw [match_far5_none]
    rw [ih (k + 1) (t + 1) acc (by omega) (by omega),
      show t + 1 + m = t + (m + 1) from by omega]

/-- Exit shape of the inner loop: whenever it returns, the final pool has 4
or fewer players, or the attempt counter has reached the size of the pool
as it is **at exit** (the current, shrunken pool — not the round-start one). -/
theorem innerLoop_exit_aux :
    ∀ (m : ℕ) (pool : List Player) (n picked : ℕ) (o : Oracle) (t : ℕ)
      (acc : List (List String)) (p' : List Player) (acc' : List (List String))
      (k' t' : ℕ),
      pool.length - picked ≤ m →
      innerLoop pool n picked o t acc = .ok (p', acc', k', t') →
      p'.length ≤ 4 ∨ p'.length ≤ k' := by
  intro m
  induction m with
  | zero =>
    intro pool n picked o t acc p' acc' k' t' hm h
    rw [innerLoop_eq, if_neg (by omega)] at h
    simp only [Except.ok.injEq, Prod.mk.injEq] at h
    obtain ⟨rfl, rfl, rfl, rfl⟩ := h
    omega
  | succ m ih =>
    intro pool n picked o t acc p' acc' k' t' hm h
    rw [innerLoop_eq] at h
    by_cases hguard : 4 < pool.length ∧ picked < pool.length
    · rw [if_pos hguard] at h
      cases hmz : «match» pool (select_seed_weighted pool (o t)) n o (t + 1) with
      | error e =>
        rw [hmz] at h
        simp at h
      | ok og =>
        rw [hmz] at h
        cases og with
        | none =>
          dsimp only [] at h
          exact ih pool n (picked + 1) o (t + 1) acc p' acc' k' t' (by omega) h
        | some g =>
          dsimp only [] at h
          have hfl : (pool.filter fun q => ¬ q ∈ g).length ≤ pool.length :=
            List.length_filter_le _ _
          exact ih (pool.filter fun q => ¬ q ∈ g) n (picked + 1) o (t + 1 + 4)
            (acc ++ [g.map Player.name]) p' acc' k' t' (by omega) h
    · rw [if_neg hguard] at h
      simp only [Except.ok.injEq, Prod.mk.injEq] at h
      obtain ⟨rfl, rfl, rfl, rfl⟩ := h
      omega

/-! ### Concrete evaluation: the ten-player pool `pool10` -/

theorem sortPool_pool10 : sortPool pool10 = pool10 := by
  norm_num [sortPool, pool10, far5, List.insertionSort, List.orderedInsert]

theorem eligibleIdx_pool10 : eligibleIdx pool10 0 10 = [0, 1, 2, 3, 4] := by
  obtain ⟨hB1, hB2⟩ := gateBound_w0_bounds pool10 0 10
    (by norm_num [pool10]) (by norm_num)
  unfold eligibleIdx
  rw [show pool10.length = 10 from by norm_num [pool10, far5],
    show List.range 10 = [0, 1, 2, 3, 4, 5, 6, 7, 8, 9] from rfl]
  have e0 : (pool10.getD 0 default).elo = 1000 := by norm_num [pool10]
  have e1 : (pool10.getD 1 default).elo = 1010 := by norm_num [pool10]
  have e2 : (pool10.getD 2 default).elo = 1020 := by norm_num [pool10]
  have e3 : (pool10.getD 3 default).elo = 1030 := by norm_num [pool10]
  have e4 : (pool10.getD 4 default).elo = 1040 := by norm_num [pool10]
  have e5 : (pool10.getD 5 default).elo = 100000 := by norm_num [pool10, far5]
  have e6 : (pool10.getD 6 default).elo = 200000 := by norm_num [pool10, far5]
  have e7 : (pool10.getD 7 default).elo = 300000 := by norm_num [pool10, far5]
  have e8 : (pool10.getD 8 default).elo = 400000 := by norm_num [pool10, far5]
  have e9 : (pool10.getD 9 default).elo = 500000 := by norm_num [pool10, far5]
  rw [List.filter_cons_of_pos (by
      simp only [decide_eq_true_eq, e0]
      rw [sub_self, abs_zero]
      intro hcon
      linarith),
    List.filter_cons_of_pos (by
      simp only [decide_eq_true_eq, e0, e1]
      rw [show (1010 : ℝ) - 1000 = 10 by norm_num,
        abs_of_nonneg (by norm_num : (0:ℝ) ≤ 10)]
      intro hcon
      linarith),
    List.filter_cons_of_pos (by
      simp only [decide_eq_true_eq, e0, e2]
      rw [show (1020 : ℝ) - 1000 = 20 by norm_num,
        abs_of_nonneg (by norm_num : (0:ℝ) ≤ 20)]
      intro hcon
      linarith),
    List.filter_cons_of_pos (by
      simp only [decide_eq_true_eq, e0, e3]
      rw [show (1030 : ℝ) - 1000 = 30 by norm_num,
        abs_of_nonneg (by norm_num : (0:ℝ) ≤ 30)]
      intro hcon
      linarith),
    List.filter_cons_of_pos (by
      simp only [decide_eq_true_eq, e0, e4]
      rw [show (1040 : ℝ) - 1000 = 40 by norm_num,
        abs_of_nonneg (by norm_num : (0:ℝ) ≤ 40)]
      intro hcon
      linarith),
    List.filter_cons_of_neg (by
      simp only [decide_eq_true_eq, not_not, e0, e5]
      rw [show (100000 : ℝ) - 1000 = 99000 by norm_num,
        abs_of_nonneg (by norm_num : (0:ℝ) ≤ 99000)]
      linarith),
    List.filter_cons_of_neg (by
      simp only [decide_eq_true_eq, not_not, e0, e6]
      rw [show (200000 : ℝ) - 1000 = 199000 by norm_num,
        abs_of_nonneg (by norm_num : (0:ℝ) ≤ 199000)]
      linarith),
    List.filter_cons_of_neg (by
      simp only [decide_eq_true_eq, not_not, e0, e7]
      rw [show (300000 : ℝ) - 1000 = 299000 by norm_num,
        abs_of_nonneg (by norm_num : (0:ℝ) ≤ 299000)]
      linarith),
    List.filter_cons_of_neg (by
      simp only [decide_eq_true_eq, not_not, e0, e8]
      rw [show (400000 : ℝ) - 1000 = 399000 by norm_num,
        abs_of_nonneg (by norm_num : (0:ℝ) ≤ 399000)]
      linarith),
    List.filter_cons_of_neg (by
      simp only [decide_eq_true_eq, not_not, e0, e9]
      rw [show (500000 : ℝ) - 1000 = 499000 by norm_num,
        abs_of_nonneg (by norm_num : (0:ℝ) ≤ 499000)]
      linarith)]
  rfl

theorem possiblePlayers_pool10 : possiblePlayers pool10 0 10 = 5 := by
  unfold possiblePlayers
  rw [eligibleIdx_pool10]
  rfl

theorem npStd_pool10_pos : 0 < npStd (eloDiffs pool10 0) := by
  have hel : eloDiffs pool10 0 =
      [0, 10, 20, 30, 40, 99000, 199000, 299000, 399000, 499000] := by
    norm_num [eloDiffs, pool10, far5]
  rw [hel]
  exact npStd_pos (by norm_num) (by norm_num) (by norm_num : (0:ℝ) ≠ 10)

theorem match_pool10_eval :
    «match» pool10 0 10 o₀ 1 = .ok (some (matchGroup pool10 0 10 o₀ 1)) := by
  unfold «match»
  rw [sortPool_pool10, possiblePlayers_pool10, if_neg (by norm_num),
    if_neg npStd_pool10_pos.ne']

theorem posIndices_probs_pool10 :
    posIndices (probs pool10 0 10) = [1, 2, 3, 4] := by
  have hsum : 0 < (gatedScores pool10 0 10).sum :=
    gatedScores_sum_pos (by norm_num [pool10, far5])
      (by rw [possiblePlayers_pool10])
  unfold probs
  rw [posIndices_map_div hsum, posIndices_gatedScores, eligibleIdx_pool10]
  decide

theorem sampleIdx_pool10 :
    sampleIdx 4 (probs pool10 0 10) o₀ 1 = [1, 2, 3, 4] := by
  have hsum : 0 < (gatedScores pool10 0 10).sum :=
    gatedScores_sum_pos (by norm_num [pool10, far5])
      (by rw [possiblePlayers_pool10])
  rw [sampleIdx_const_zero 4 (probs pool10 0 10) 1
      (probs_nonneg pool10 0 10 hsum.le)
      (by rw [posIndices_probs_pool10]; norm_num),
    posIndices_probs_pool10]
  rfl

theorem matchGroup_pool10 :
    matchGroup pool10 0 10 o₀ 1 =
      [⟨"c1", 1000, 0⟩, ⟨"c2", 1010, 0⟩, ⟨"c3", 1020, 0⟩,
       ⟨"c4", 1030, 0⟩, ⟨"c5", 1040, 0⟩] := by
  unfold matchGroup
  rw [sortPool_pool10, sampleIdx_pool10]
  norm_num [pool10]

theorem select_pool10 (v : ℕ) : select_seed_weighted pool10 v = v % 10 := by
  unfold select_seed_weighted
  rw [if_pos (by norm_num [pool10, far5]),
    show pool10.length = 10 from by norm_num [pool10, far5]]

/-- C4 counterexample: starting a round with the 10 players of `pool10`, the
first attempt forms a group of the five close players, leaving the 5 players
of `far5`; the loop then exits after only 5 seed-selection attempts — the
current pool size — although the pool still has 5 > 4 players and the pool
size at round start was 10: line 78 compares `players_picked` against
`len(players)` of the *current*, shrunken list. -/
theorem c4_counterexample :
    innerLoop pool10 10 0 o₀ 0 [] =
      .ok (far5, [["c1", "c2", "c3", "c4", "c5"]], 5, 9) ∧
    pool10.length = 10 ∧ far5.length = 5 := by
  refine ⟨?_, by norm_num [pool10, far5], by norm_num [far5]⟩
  rw [innerLoop_eq, if_pos ⟨by norm_num [pool10, far5], by norm_num [pool10, far5]⟩]
  rw [show select_seed_weighted pool10 (o₀ 0) = 0 from by rw [select_pool10]; rfl]
  rw [match_pool10_eval]
  dsimp only []
  rw [matchGroup_pool10]
  rw [show pool10.filter (fun q => ¬ q ∈
      [(⟨"c1", 1000, 0⟩ : Player), ⟨"c2", 1010, 0⟩, ⟨"c3", 1020, 0⟩,
       ⟨"c4", 1030, 0⟩, ⟨"c5", 1040, 0⟩]) = far5 from by
    norm_num [pool10, far5, Player.mk.injEq, List.filter_cons]]
  simp only [Nat.reduceAdd, List.nil_append]
  rw [show ([(⟨"c1", 1000, 0⟩ : Player), ⟨"c2", 1010, 0⟩, ⟨"c3", 1020, 0⟩,
      ⟨"c4", 1030, 0⟩, ⟨"c5", 1040, 0⟩]).map Player.name =
      ["c1", "c2", "c3", "c4", "c5"] from rfl]
  rw [innerLoop_far5 4 1 5 [["c1", "c2", "c3", "c4", "c5"]] (by norm_num)
    (by norm_num)]

/-- C4 amended: a round's inner loop terminates once the pool size drops to
4 or fewer, or once the attempt counter reaches the **current** pool size
(which may be smaller than the pool size at round start, since successful
groups shrink the list the bound is read from). -/
theorem c4_inner_loop_bound_is_current_size (pool : List Player)
    (n picked : ℕ) (o : Oracle) (t : ℕ) (acc : List (List String))
    (p' : List Player) (acc' : List (List String)) (k' t' : ℕ)
    (h : innerLoop pool n picked o t acc = .ok (p', acc', k', t')) :
    p'.length ≤ 4 ∨ p'.length ≤ k' :=
  innerLoop_exit_aux (pool.length - picked) pool n picked o t acc p' acc' k' t'
    le_rfl h

/-- Witness for the amended C4 at a concrete input. -/
theorem c4_inner_loop_bound_is_current_size_witness :
    ([] : List Player).length ≤ 4 ∨ ([] : List Player).length ≤ 0 :=
  c4_inner_loop_bound_is_current_size [] 0 0 o₀ 0 [] [] [] 0 0
    (by rw [innerLoop_eq, if_neg (by simp)])
